import Mathlib

/-!
# Verification of the target extraction pipeline

A shallow embedding, in Lean 4, of the core pipeline of
`targets_extraction.py`: branch resolution from scan records, source-family
inference, integration-credential selection, GitLab identifier lookup with
retry/backoff, import-entry assembly, and the per-organization orchestration
loop.  Python strings are modelled as Lean `String`s (operations are spelled
out over the underlying character lists so that every definition reduces by
computation); Python `dict`s of optional fields become records of `Option`
fields, where a key that is absent or bound to a falsy value is modelled the
way the source observes it (truthiness checks); Python exceptions at the two
fetch boundaries become `Except` values.
-/

namespace SnykExtract

/-! ## Character-list string machinery

Helper functions mirroring the Python string operations used by the source
(`in`, `split`, `strip`), written by structural recursion over `List Char`
so that everything evaluates inside the kernel. -/

/-- `charsStartWith needle hay` is true when `needle` is a prefix of `hay`. -/
def charsStartWith : List Char → List Char → Bool
  | [], _ => true
  | _ :: _, [] => false
  | n :: ns, h :: hs => n = h && charsStartWith ns hs

/-- Substring containment (Python `needle in hay`) for a non-empty needle. -/
def charsContainsSub (needle : List Char) : List Char → Bool
  | [] => charsStartWith needle []
  | h :: hs => charsStartWith needle (h :: hs) || charsContainsSub needle hs

/-- Everything after the first occurrence of `needle` (empty if absent). -/
def charsAfterFirstSub (needle : List Char) : List Char → List Char
  | [] => []
  | h :: hs =>
    if charsStartWith needle (h :: hs) then (h :: hs).drop needle.length
    else charsAfterFirstSub needle hs

/-- Everything up to (excluding) the first occurrence of `needle`. -/
def charsTakeUntilSub (needle : List Char) : List Char → List Char
  | [] => []
  | h :: hs =>
    if charsStartWith needle (h :: hs) then []
    else h :: charsTakeUntilSub needle hs

/-- Python `str.split(sep)` for a single-character separator. -/
def splitOnChar (c : Char) : List Char → List (List Char)
  | [] => [[]]
  | x :: xs =>
    if x = c then [] :: splitOnChar c xs
    else
      match splitOnChar c xs with
      | s :: rest => (x :: s) :: rest
      | [] => [[x]]

/-- Python `sep.join(parts)` for a single-character separator. -/
def charsIntercalate (c : Char) : List (List Char) → List Char
  | [] => []
  | [x] => x
  | x :: y :: rest => x ++ c :: charsIntercalate c (y :: rest)

/-- Python `str.strip()` (whitespace at both ends). -/
def charsTrim (l : List Char) : List Char :=
  ((l.dropWhile Char.isWhitespace).reverse.dropWhile Char.isWhitespace).reverse

/-- Python `needle in hay` on strings. -/
def strContains (needle hay : String) : Bool :=
  charsContainsSub needle.data hay.data

/-- Python `c in s` for a single character. -/
def strContainsChar (c : Char) (s : String) : Bool :=
  s.data.any (fun x => x = c)

/-- Python `s.strip()`. -/
def strTrim (s : String) : String :=
  String.mk (charsTrim s.data)

/-- Python `s.split(c)[-1]`: the suffix after the last occurrence of `c`
(the whole string when `c` is absent). -/
def strAfterLastChar (c : Char) (s : String) : String :=
  String.mk ((s.data.reverse.takeWhile (fun x => x ≠ c)).reverse)

/-- The separator `" ("` used by the parenthesis branch pattern. -/
def spaceParen : List Char := [' ', '(']

/-- Python `name.split(" (")[1].split(")")[0].strip()`: the segment between
the first and the second occurrence of `" ("`, truncated at the first `')'`,
then stripped. -/
def parenCandidate (s : String) : String :=
  strTrim (String.mk
    ((charsTakeUntilSub spaceParen (charsAfterFirstSub spaceParen s.data)).takeWhile
      (fun x => x ≠ ')')))

/-! ## Scan records and the Branch Resolver

`extract_target_attributes_from_projects` in the source, lines 199-270.
A scan record ("project") is observed only through `attributes.name`,
`attributes.target_reference` and `attributes.branch`; the two optional
fields are read with `.get(...)` and immediately truthiness-tested, so a
missing key and an empty string are indistinguishable to the code and are
both modelled as `""`. -/

structure ProjectAttrs where
  name : String
  targetReference : String
  branch : String
deriving DecidableEq

/-- Rule (a): the explicit `target_reference` field, when truthy. -/
def ruleTargetReference (p : ProjectAttrs) : Option String :=
  if p.targetReference ≠ "" then some p.targetReference else none

/-- Rule (b): the explicit `branch` field, when truthy. -/
def ruleBranchField (p : ProjectAttrs) : Option String :=
  if p.branch ≠ "" then some p.branch else none

/-- The candidate of the colon pattern: `name.split(":")[-1].strip()`. -/
def colonCandidate (n : String) : String :=
  strTrim (strAfterLastChar ':' n)

/-- The validated colon candidate: kept only when non-empty and free of
`'/'` (the URL guard, source line 231). -/
def colonBody (n : String) : Option String :=
  if colonCandidate n ≠ "" ∧ ¬ strContainsChar '/' (colonCandidate n) then
    some (colonCandidate n)
  else none

/-- The validated parenthesis candidate: kept only when non-empty (source
line 236). -/
def parenBody (n : String) : Option String :=
  if parenCandidate n ≠ "" then some (parenCandidate n) else none

/-- Rule (c): a name of the form `<name>:<branch>` whose stripped trailing
segment is non-empty and contains no `'/'`. -/
def ruleColonSuffix (p : ProjectAttrs) : Option String :=
  if strContainsChar ':' p.name then colonBody p.name else none

/-- Rule (d): a name matching the `<name> (<branch>)` pattern, i.e. one that
contains `" ("` and `')'`, with a non-empty extracted candidate. -/
def ruleParen (p : ProjectAttrs) : Option String :=
  if strContains " (" p.name ∧ strContainsChar ')' p.name then parenBody p.name
  else none

/-- Per-record branch extraction exactly as the source's `if/elif` chain
computes it (lines 222-237): the presence of `':'` in the name selects the
colon rule and, when that rule yields nothing, no further rule is tried. -/
def extract_branch (p : ProjectAttrs) : Option String :=
  if p.targetReference ≠ "" then some p.targetReference
  else if p.branch ≠ "" then some p.branch
  else if strContainsChar ':' p.name then colonBody p.name
  else if strContains " (" p.name ∧ strContainsChar ')' p.name then parenBody p.name
  else none

/-- The claim's reading of the extraction chain: four independent rules,
first rule that yields a branch wins (rule (d) is consulted whenever rules
(a)-(c) produced nothing). -/
def extract_branch_spec (p : ProjectAttrs) : Option String :=
  ruleTargetReference p <|> ruleBranchField p <|> ruleColonSuffix p <|> ruleParen p

/-- Rule (d) as the code actually gates it: only consulted when the record
name contains no `':'`. -/
def ruleParenGated (p : ProjectAttrs) : Option String :=
  if strContainsChar ':' p.name then none else ruleParen p

/-- The amended extraction chain. -/
def extract_branch_amended (p : ProjectAttrs) : Option String :=
  ruleTargetReference p <|> ruleBranchField p <|> ruleColonSuffix p <|> ruleParenGated p

/-- One `branches.add(...)` step: insert the record's extracted branch, if
any, unless already present. -/
def branchStep (acc : List String) (p : ProjectAttrs) : List String :=
  match extract_branch p with
  | some b => if b ∈ acc then acc else acc ++ [b]
  | none => acc

/-- The deduplicated branch collection of a scan-record list, in first-seen
order (the Python `set`, observed only through membership, size and
`sorted`). -/
def collectBranches (ps : List ProjectAttrs) : List String :=
  ps.foldl branchStep []

/-- Python `sorted` on the branch set (lexicographic string order). -/
def sortStrings (l : List String) : List String :=
  l.insertionSort (fun a b => a ≤ b)

/-- The primary-branch preference: `main`, else `master`, else the
lexicographically smallest branch (source lines 256-262). -/
def primaryOf (bs : List String) : String :=
  if "main" ∈ bs then "main"
  else if "master" ∈ bs then "master"
  else (sortStrings bs).headD ""

/-- The target-level branch attributes dictionary, as the three shapes it
can take: empty, `{"branch": b}`, or
`{"branches": sorted, "primary_branch": p}`. -/
inductive TargetAttrs where
  | noBranches : TargetAttrs
  | single (b : String) : TargetAttrs
  | multi (sortedBranches : List String) (primary : String) : TargetAttrs
deriving DecidableEq

/-- `extract_target_attributes_from_projects` (source lines 199-270): an
empty record list or a record list yielding no branches gives the empty
dictionary; one distinct branch gives the single-branch shape; two or more
give the sorted multi-branch shape with the primary selected by
`primaryOf`. -/
def extract_target_attributes_from_projects (ps : List ProjectAttrs) : TargetAttrs :=
  match collectBranches ps with
  | [] => .noBranches
  | [b] => .single b
  | b :: b2 :: rest => .multi (sortStrings (b :: b2 :: rest)) (primaryOf (b :: b2 :: rest))

/-! ## Targets, source-family inference and the Integration Matcher

`get_source_integration_type` (source lines 391-430) and the inline filter
of `extract_targets` (lines 583-600).  A target is observed through
`attributes.url`, `attributes.display_name` (both defaulting to `""`) and
the optional `relationships.integration.data.attributes.integration_type`
chain. -/

structure Target where
  id : String
  url : String
  displayName : String
  relIntegrationType : Option String
deriving DecidableEq

/-- The integration-variant names of the first family, in the source's
preference order (source line 65). -/
def GITHUB_INTEGRATION_TYPES : List String :=
  ["github-cloud-app", "github-enterprise", "github"]

/-- The integration-variant names of the second family (source line 68). -/
def GITLAB_INTEGRATION_TYPES : List String := ["gitlab"]

/-- The four values accepted by the `--source` selector. -/
def sourceFilterChoices : List String :=
  ["github", "github-enterprise", "github-cloud-app", "gitlab"]

/-- The last-resort inference heuristic: a path separator in the display
name implies the first family (source lines 425-428). -/
def inferFallback (t : Target) : Option String :=
  if strContainsChar '/' t.displayName then some "github" else none

/-- `get_source_integration_type` (source lines 391-430): URL substring
match for GitLab, then for GitHub, then the explicit integration-type
relationship attribute restricted to known variant names, then the display
name heuristic; `none` when no signal. -/
def get_source_integration_type (t : Target) : Option String :=
  if strContains "gitlab.com" t.url || strContains "gitlab" t.url then some "gitlab"
  else if strContains "github.com" t.url then some "github"
  else
    match t.relIntegrationType with
    | some it =>
      if it = "github" ∨ it = "github-cloud-app" ∨ it = "github-enterprise" then some it
      else if it = "gitlab" then some "gitlab"
      else inferFallback t
    | none => inferFallback t

/-- The destination organization's integrations map (variant name →
credential id), as an association list; `lookupIntegration` is the Python
`dict` lookup / `in` test. -/
def lookupIntegration (ti : List (String × String)) (k : String) : Option String :=
  (ti.find? (fun p => p.1 = k)).map (fun p => p.2)

/-- The inline source filter of `extract_targets` (lines 584-600): for a
first-family filter value the inferred type must be one of the three
first-family variants and the exact requested variant must be a key of the
integrations map; for `"gitlab"` the inferred type must be `"gitlab"` and
the `"gitlab"` key must be present.  A filter value outside the four
selector choices filters nothing (the `if/elif` chain falls through). -/
def passesFilter (sourceFilter : String) (src : Option String)
    (ti : List (String × String)) : Bool :=
  if sourceFilter = "github" ∨ sourceFilter = "github-cloud-app" ∨
      sourceFilter = "github-enterprise" then
    decide (src = some "github" ∨ src = some "github-cloud-app" ∨
      src = some "github-enterprise") && (lookupIntegration ti sourceFilter).isSome
  else if sourceFilter = "gitlab" then
    decide (src = some "gitlab") && (lookupIntegration ti "gitlab").isSome
  else true

/-- The family tag any of the four filter values is normalized to. -/
def familyStr (s : String) : String :=
  if s = "gitlab" then "gitlab" else "github"

/-- The family group of an integration-variant name: `some "github"` for the
three first-family variants, `some "gitlab"` for the second family, `none`
otherwise. -/
def familyOfVariant (s : String) : Option String :=
  if s = "github" ∨ s = "github-cloud-app" ∨ s = "github-enterprise" then some "github"
  else if s = "gitlab" then some "gitlab"
  else none

/-! ## Credential selection

`get_integration_type_and_id` (source lines 433-463). -/

/-- The fallback scan of `get_integration_type_and_id` (lines 452-463): the
first first-family variant present in the integrations map, then the first
second-family variant, regardless of what was requested. -/
def fallbackIntegration (ti : List (String × String)) : Option (String × String) :=
  match (GITHUB_INTEGRATION_TYPES.filterMap (fun k => (lookupIntegration ti k).map (fun v => ("github", v)))).head? with
  | some r => some r
  | none =>
    (GITLAB_INTEGRATION_TYPES.filterMap (fun k => (lookupIntegration ti k).map (fun v => ("gitlab", v)))).head?

/-- `get_integration_type_and_id` (source lines 433-463): exact match on the
requested variant name (normalized to its family tag) when that key is
present; otherwise the global fallback scan.  `(None, None)` becomes
`none`. -/
def get_integration_type_and_id (ti : List (String × String))
    (src : Option String) : Option (String × String) :=
  match src with
  | some s =>
    if s ≠ "" then
      match lookupIntegration ti s with
      | some v =>
        if s = "github" ∨ s = "github-cloud-app" ∨ s = "github-enterprise" then
          some ("github", v)
        else if s = "gitlab" then some ("gitlab", v)
        else fallbackIntegration ti
      | none => fallbackIntegration ti
    else fallbackIntegration ti
  | none => fallbackIntegration ti

/-- Credential selection as the claim states it: exact variant match first,
otherwise the first available credential from the preference list of the
requested family, and only of that family. -/
def credential_selection_spec (ti : List (String × String)) (s : String) :
    Option (String × String) :=
  match lookupIntegration ti s with
  | some v => some (familyStr s, v)
  | none =>
    if s = "gitlab" then
      (GITLAB_INTEGRATION_TYPES.filterMap (fun k => (lookupIntegration ti k).map (fun v => ("gitlab", v)))).head?
    else
      (GITHUB_INTEGRATION_TYPES.filterMap (fun k => (lookupIntegration ti k).map (fun v => ("github", v)))).head?

/-- Credential selection as amended: exact variant match first, otherwise
the first key of the single fixed preference list `github-cloud-app`,
`github-enterprise`, `github`, `gitlab` that is present in the integrations
map, tagged with that key's family — regardless of the requested family. -/
def credential_selection_amended (ti : List (String × String)) (s : String) :
    Option (String × String) :=
  match lookupIntegration ti s with
  | some v => some (familyStr s, v)
  | none =>
    ((GITHUB_INTEGRATION_TYPES ++ GITLAB_INTEGRATION_TYPES).filterMap
      (fun k => (lookupIntegration ti k).map (fun v => (familyStr k, v)))).head?

/-! ## Addressing payloads and the Import Entry Builder

`extract_gitlab_project_info_from_display_name` (lines 273-298), the
per-family `target_info` assembly inside `extract_targets` (lines 614-637),
and `create_target_entry` (lines 466-491).  The `target_info` dictionary can
only ever hold the keys `owner`, `name` and `id`; it is modelled as a record
of options, empty (falsy) when all three are absent. -/

structure TargetInfo where
  owner : Option String
  name : Option String
  pid : Option Int
deriving DecidableEq

/-- Python truthiness of the `target_info` dictionary: `false` iff no key is
present. -/
def TargetInfo.isEmptyDict (i : TargetInfo) : Bool :=
  i.owner.isNone && i.name.isNone && i.pid.isNone

/-- The first-family addressing payload (source lines 616-623): `owner` and
`name` split on the first `'/'` when the display name contains one, `name`
alone for a non-empty display name different from the sentinel
`"unknown"`, empty otherwise. -/
def githubTargetInfo (d : String) : TargetInfo :=
  if d ≠ "" ∧ strContainsChar '/' d then
    { owner := some (String.mk (d.data.takeWhile (fun x => x ≠ '/')))
      name := some (String.mk ((d.data.dropWhile (fun x => x ≠ '/')).tail))
      pid := none }
  else if d ≠ "" ∧ d ≠ "unknown" then
    { owner := none, name := some d, pid := none }
  else
    { owner := none, name := none, pid := none }

structure GitlabInfo where
  ns : String
  name : String
deriving DecidableEq

/-- `extract_gitlab_project_info_from_display_name` (source lines 273-298):
split on `'/'`; the last segment is the project name, the rest rejoined with
`'/'` is the namespace; `none` when the display name is empty or has no
separator. -/
def extract_gitlab_project_info_from_display_name (d : String) : Option GitlabInfo :=
  if d = "" ∨ ¬ strContainsChar '/' d then none
  else
    let parts := splitOnChar '/' d.data
    if 2 ≤ parts.length then
      some { ns := String.mk (charsIntercalate '/' parts.dropLast)
             name := String.mk (parts.getLastD []) }
    else none

/-- A per-branch import directive as emitted into the output collection
(`create_target_entry`, source lines 466-491). -/
structure ImportEntry where
  orgId : String
  integrationId : String
  exclusionGlobs : String
  target : Option (TargetInfo × Option String)
deriving DecidableEq

/-- `create_target_entry` (source lines 466-491): org id, integration id and
the empty exclusion-globs placeholder always; the addressing object only
when `target_info` is a non-empty dictionary, with the branch added inside
it only when the branch argument is truthy. -/
def create_target_entry (targetOrgId integrationId : String) (info : TargetInfo)
    (branch : Option String) : ImportEntry :=
  { orgId := targetOrgId
    integrationId := integrationId
    exclusionGlobs := ""
    target :=
      if info.isEmptyDict then none
      else some (info,
        match branch with
        | some b => if b ≠ "" then some b else none
        | none => none) }

/-- The branch recorded inside an entry's addressing object, if any. -/
def entryBranch (e : ImportEntry) : Option String :=
  match e.target with
  | some (_, br) => br
  | none => none

/-! ## Per-target processing

The body of the target loop of `extract_targets` (lines 573-710), split
into the pieces the claims talk about.  The two effectful collaborators are
parameters: the GitLab identifier lookup is a function from parsed project
info to an optional numeric id (its retry loop is modelled separately
below), and the scan-record fetch is an `Except` value (a Python exception
at that call becomes `Except.error`). -/

inductive Warn where
  | noIntegration : Warn
  | couldNotGetPid : Warn
  | couldNotParseGitlab : Warn
  | projectsFetchFailed : Warn
  | missingOwnerName : Warn
  | missingProjectId : Warn
  | orgFailed : Warn
deriving DecidableEq

/-- The per-family `target_info` assembly (source lines 614-637): the first
family always succeeds (possibly with an empty payload); the second family
fails — `continue`, dropping the repository — when the display name cannot
be parsed or the external lookup yields no truthy id. -/
def targetInfoFor (itype : String) (d : String) (gitlabPid : GitlabInfo → Option Int) :
    Except Warn TargetInfo :=
  if itype = "github" then .ok (githubTargetInfo d)
  else if itype = "gitlab" then
    match extract_gitlab_project_info_from_display_name d with
    | some gi =>
      match gitlabPid gi with
      | some pid =>
        if pid ≠ 0 then .ok { owner := none, name := none, pid := some pid }
        else .error .couldNotGetPid
      | none => .error .couldNotGetPid
    | none => .error .couldNotParseGitlab
  else .ok { owner := none, name := none, pid := none }

/-- The branch attributes actually used, after the scan-record fetch: a
fetch failure is caught and treated as an empty dictionary (source lines
640-646). -/
def projectAttrsOf (pr : Except String (List ProjectAttrs)) : TargetAttrs :=
  match pr with
  | .ok ps => extract_target_attributes_from_projects ps
  | .error _ => .noBranches

/-- The warning reported when the scan-record fetch failed. -/
def fetchWarnings (pr : Except String (List ProjectAttrs)) : List Warn :=
  match pr with
  | .ok _ => []
  | .error _ => [.projectsFetchFailed]

/-- Entry construction from the branch attributes (source lines 648-710):
one entry carrying the branch in the single-branch case, one entry per
branch of the sorted list in the multi-branch case, one branchless entry
when there are no branch attributes. -/
def buildEntries (targetOrgId integrationId : String) (info : TargetInfo) :
    TargetAttrs → List ImportEntry
  | .noBranches => [create_target_entry targetOrgId integrationId info none]
  | .single b => [create_target_entry targetOrgId integrationId info (some b)]
  | .multi bs _ => bs.map (fun b => create_target_entry targetOrgId integrationId info (some b))

/-- Python truthiness of an optional-string dictionary value. -/
def optFalsy (o : Option String) : Bool :=
  match o with
  | none => true
  | some s => s = ""

/-- The import-health warnings printed only on the no-branch path (source
lines 699-708): missing owner/name for the first family, missing numeric id
for the second. -/
def noBranchWarnings (itype : String) (info : TargetInfo) : TargetAttrs → List Warn
  | .noBranches =>
    if itype = "github" then
      if optFalsy info.owner || optFalsy info.name then [.missingOwnerName] else []
    else
      if info.pid.isNone || info.pid = some 0 then [.missingProjectId] else []
  | _ => []

/-- The post-filter portion of the target loop (source lines 604-710):
credential selection, `continue` on a falsy integration id, addressing
assembly, scan-record fetch and entry construction. -/
def processAccepted (sourceFilter targetOrgId : String) (ti : List (String × String))
    (gitlabPid : GitlabInfo → Option Int) (pr : Except String (List ProjectAttrs))
    (t : Target) : List ImportEntry × List Warn :=
  match get_integration_type_and_id ti (some sourceFilter) with
  | none => ([], [.noIntegration])
  | some (itype, iid) =>
    if iid = "" then ([], [.noIntegration])
    else
      match targetInfoFor itype t.displayName gitlabPid with
      | .error w => ([], [w])
      | .ok info =>
        (buildEntries targetOrgId iid info (projectAttrsOf pr),
         fetchWarnings pr ++ noBranchWarnings itype info (projectAttrsOf pr))

/-- One iteration of the target loop (source lines 573-710): the source
filter, then the accepted-target pipeline. -/
def processTarget (sourceFilter targetOrgId : String) (ti : List (String × String))
    (gitlabPid : GitlabInfo → Option Int) (pr : Except String (List ProjectAttrs))
    (t : Target) : List ImportEntry × List Warn :=
  if passesFilter sourceFilter (get_source_integration_type t) ti then
    processAccepted sourceFilter targetOrgId ti gitlabPid pr t
  else ([], [])

/-! ## Per-organization processing and the run

The organization loop of `extract_targets` (lines 553-714).  The target
listing fetch for one organization is an `Except` value: the surrounding
`try`/`except` turns a failure into zero results for that organization and
the loop continues. -/

structure OrgData where
  orgId : String
  integrations : List (String × String)
deriving DecidableEq

structure SourceOrg where
  id : String
  name : String
deriving DecidableEq

/-- Processing of one organization (source lines 567-714): on a listing
failure, the exception is caught at this boundary and the organization
contributes nothing; otherwise every fetched target is processed in listing
order and the results are concatenated. -/
def processOrg (sourceFilter : String) (data : OrgData)
    (targetsResult : Except String (List Target))
    (projectsFor : String → Except String (List ProjectAttrs))
    (gitlabPid : GitlabInfo → Option Int) : List ImportEntry × List Warn :=
  match targetsResult with
  | .error _ => ([], [.orgFailed])
  | .ok ts =>
    ts.foldl
      (fun acc t =>
        let r := processTarget sourceFilter data.orgId data.integrations gitlabPid
          (projectsFor t.id) t
        (acc.1 ++ r.1, acc.2 ++ r.2))
      ([], [])

/-- The destination-organization mapping lookup. -/
def lookupOrg (mapping : List (String × OrgData)) (n : String) : Option OrgData :=
  (mapping.find? (fun p => p.1 = n)).map (fun p => p.2)

/-- One step of the organization loop: the mapping lookup (always succeeding
for the filtered list, mirroring the defensive `continue`) followed by
`processOrg`. -/
def orgStep (sourceFilter : String) (mapping : List (String × OrgData))
    (fetchTargets : String → Except String (List Target))
    (fetchProjects : String → String → Except String (List ProjectAttrs))
    (gitlabPid : GitlabInfo → Option Int) (o : SourceOrg) : List ImportEntry × List Warn :=
  match lookupOrg mapping o.name with
  | none => ([], [])
  | some data => processOrg sourceFilter data (fetchTargets o.id) (fetchProjects o.id) gitlabPid

/-- The whole run of `extract_targets` after configuration loading (source
lines 539-717): restrict the source organizations to those with a
destination mapping, then process each in order, accumulating entries and
warnings. -/
def extract_targets_core (sourceFilter : String)
    (mapping : List (String × OrgData)) (sourceOrgs : List SourceOrg)
    (fetchTargets : String → Except String (List Target))
    (fetchProjects : String → String → Except String (List ProjectAttrs))
    (gitlabPid : GitlabInfo → Option Int) : List ImportEntry × List Warn :=
  (sourceOrgs.filter (fun o => (lookupOrg mapping o.name).isSome)).foldl
    (fun acc o =>
      let r := orgStep sourceFilter mapping fetchTargets fetchProjects gitlabPid o
      (acc.1 ++ r.1, acc.2 ++ r.2))
    ([], [])

/-! ## The GitLab lookup retry loop

`get_gitlab_project_id` (source lines 301-388), modelled as a pure function
over a script of per-attempt interactions: each attempt either raises a
network-level exception or observes an HTTP response with a status, the two
rate-limit headers and the body's `id` field.  The outcome records how many
requests were issued, the sleeps performed in order, and the returned
identifier. -/

structure GLHttp where
  status : Nat
  remaining : Option Nat
  retryAfter : Option Nat
  bodyId : Option Int
deriving DecidableEq

inductive GLEvent where
  | resp (r : GLHttp) : GLEvent
  | netError : GLEvent
deriving DecidableEq

structure GLOutcome where
  requests : Nat
  sleeps : List Nat
  result : Option Int
deriving DecidableEq

/-- `max_retries` (source line 337). -/
def glMaxRetries : Nat := 3

/-- `base_delay` in seconds (source line 338). -/
def glBaseDelay : Nat := 1

/-- The default exponential backoff delay `base_delay * (2 ** attempt)`. -/
def glDelay (attempt : Nat) : Nat := glBaseDelay * 2 ^ attempt

/-- The pre-dispatch rate-limit cooldown (source lines 345-348): a response
whose `RateLimit-Remaining` header is present and below 10 inserts a fixed
2-second sleep before the status is examined. -/
def glPreSleep (r : GLHttp) (sleeps : List Nat) : List Nat :=
  match r.remaining with
  | some q => if q < 10 then 2 :: sleeps else sleeps
  | none => sleeps

/-- The `for attempt in range(max_retries)` loop (source lines 340-388), by
recursion on the list of attempt indices still to run; `sleeps` accumulates
performed sleeps in reverse.  A script shorter than the attempts consumed
behaves as a network exception.  200 returns the body id; 404 returns
`none` at once; 429 sleeps the server-provided `Retry-After` (default
`glDelay attempt`) and retries, except on the last attempt, which returns
`none` without that sleep; any other status, and a network exception,
sleeps `glDelay attempt` and retries with the same last-attempt cutoff.
The exhausted-loop case mirrors the dead `return None` of line 388. -/
def glLoop : List Nat → List GLEvent → List Nat → GLOutcome
  | [], _, sleeps => ⟨glMaxRetries, sleeps.reverse, none⟩
  | attempt :: moreAttempts, events, sleeps =>
    match events.headD .netError with
    | .netError =>
      if moreAttempts.isEmpty then ⟨attempt + 1, sleeps.reverse, none⟩
      else glLoop moreAttempts events.tail (glDelay attempt :: sleeps)
    | .resp r =>
      if r.status = 200 then ⟨attempt + 1, (glPreSleep r sleeps).reverse, r.bodyId⟩
      else if r.status = 404 then ⟨attempt + 1, (glPreSleep r sleeps).reverse, none⟩
      else if r.status = 429 then
        if moreAttempts.isEmpty then ⟨attempt + 1, (glPreSleep r sleeps).reverse, none⟩
        else
          glLoop moreAttempts events.tail
            (r.retryAfter.getD (glDelay attempt) :: glPreSleep r sleeps)
      else
        if moreAttempts.isEmpty then ⟨attempt + 1, (glPreSleep r sleeps).reverse, none⟩
        else glLoop moreAttempts events.tail (glDelay attempt :: glPreSleep r sleeps)

/-- The whole retry loop of `get_gitlab_project_id` (with the GitLab token
configured): attempts `0`, `1`, `2`, i.e. `range(max_retries)`. -/
def glRun (events : List GLEvent) : GLOutcome :=
  glLoop [0, 1, 2] events []

/-! ## Helper lemmas: the Branch Resolver -/

theorem extract_branch_eq_amended_rules (p : ProjectAttrs) :
    extract_branch p = extract_branch_amended p := by
  unfold extract_branch extract_branch_amended ruleTargetReference ruleBranchField
    ruleColonSuffix ruleParenGated ruleParen
  by_cases h1 : p.targetReference = "" <;>
    by_cases h2 : p.branch = "" <;>
      by_cases h3 : strContainsChar ':' p.name <;>
        simp [h1, h2, h3]

theorem extract_branch_ne_empty {p : ProjectAttrs} {b : String}
    (h : extract_branch p = some b) : b ≠ "" := by
  unfold extract_branch at h
  split_ifs at h with h1 h2 h3 h4
  · cases h; exact h1
  · cases h; exact h2
  · unfold colonBody at h
    split_ifs at h with h5
    · cases h; exact h5.1
  · unfold parenBody at h
    split_ifs at h with h5
    · cases h; exact h5

theorem mem_branchStep {acc : List String} {p : ProjectAttrs} {b : String} :
    b ∈ branchStep acc p ↔ b ∈ acc ∨ extract_branch p = some b := by
  unfold branchStep
  cases he : extract_branch p with
  | none => simp
  | some c =>
    by_cases hc : c ∈ acc
    · simpa [hc] using (or_iff_left_of_imp (fun h : c = b => h ▸ hc)).symm
    · simp [hc, List.mem_append, eq_comm]

theorem nodup_branchStep {acc : List String} {p : ProjectAttrs}
    (h : acc.Nodup) : (branchStep acc p).Nodup := by
  unfold branchStep
  cases he : extract_branch p with
  | none => exact h
  | some c =>
    by_cases hc : c ∈ acc <;> simp [hc, List.nodup_append, h]

theorem mem_foldl_branchStep (ps : List ProjectAttrs) :
    ∀ (acc : List String) (b : String),
      b ∈ ps.foldl branchStep acc ↔ b ∈ acc ∨ ∃ p ∈ ps, extract_branch p = some b := by
  induction ps with
  | nil => intro acc b; simp
  | cons p ps ih =>
    intro acc b
    rw [List.foldl_cons, ih, mem_branchStep]
    simp only [List.mem_cons]
    constructor
    · rintro ((hb | hb) | ⟨q, hq, he⟩)
      · exact Or.inl hb
      · exact Or.inr ⟨p, Or.inl rfl, hb⟩
      · exact Or.inr ⟨q, Or.inr hq, he⟩
    · rintro (hb | ⟨q, (rfl | hq), he⟩)
      · exact Or.inl (Or.inl hb)
      · exact Or.inl (Or.inr he)
      · exact Or.inr ⟨q, hq, he⟩

theorem nodup_foldl_branchStep (ps : List ProjectAttrs) :
    ∀ acc : List String, acc.Nodup → (ps.foldl branchStep acc).Nodup := by
  induction ps with
  | nil => intro acc h; exact h
  | cons p ps ih => intro acc h; exact ih _ (nodup_branchStep h)

theorem mem_collectBranches {ps : List ProjectAttrs} {b : String} :
    b ∈ collectBranches ps ↔ ∃ p ∈ ps, extract_branch p = some b := by
  unfold collectBranches
  rw [mem_foldl_branchStep]
  simp

theorem collectBranches_nodup (ps : List ProjectAttrs) : (collectBranches ps).Nodup :=
  nodup_foldl_branchStep ps [] List.nodup_nil

theorem collectBranches_ne_empty {ps : List ProjectAttrs} {b : String}
    (h : b ∈ collectBranches ps) : b ≠ "" := by
  obtain ⟨p, _, he⟩ := mem_collectBranches.mp h
  exact extract_branch_ne_empty he

/-! ## Claim C3 -/

/-- C3, counterexample.  The claim reads the extraction rules as an ordered
first-match-wins fallback: on the record named `"a:b/c (dev)"` (no explicit
fields) rule (c) does not match — the trailing segment `"b/c (dev)"`
contains `'/'` — so rule (d) would fire and yield `"dev"`.  The code's
`elif` chain, however, commits to the colon rule as soon as the name
contains `':'` and extracts nothing. -/
theorem branch_rule_chain_counterexample :
    extract_branch ⟨"a:b/c (dev)", "", ""⟩ = none ∧
    extract_branch_spec ⟨"a:b/c (dev)", "", ""⟩ = some "dev" :=
  ⟨rfl, rfl⟩

/-- C3, amended: the Branch Resolver derives at most one branch per scan
record through the ordered fallback (a) explicit `targetReference`,
(b) explicit `branch`, (c) the colon pattern, (d) the parenthesis pattern —
where rule (d) is consulted only when the record name contains no `':'`
(a name containing `':'` whose trailing segment is empty or contains `'/'`
yields no branch at all).  A record from which no rule yields a branch
contributes nothing and does not prevent other records from contributing,
and the resulting branch set is deduplicated. -/
theorem branch_resolver_amended_rules :
    (∀ p, extract_branch p =
      (ruleTargetReference p <|> ruleBranchField p <|> ruleColonSuffix p <|>
        ruleParenGated p)) ∧
    (∀ ps, (collectBranches ps).Nodup) ∧
    (∀ ps b, b ∈ collectBranches ps ↔ ∃ p ∈ ps, extract_branch p = some b) :=
  ⟨fun p => extract_branch_eq_amended_rules p, collectBranches_nodup,
    fun _ _ => mem_collectBranches⟩

/-! ## Claim C10 -/

/-- C10: when the assembled addressing payload is the empty dictionary —
which for a first-family repository happens exactly when the display name is
empty or is the sentinel `"unknown"` — the emitted entry carries no
addressing object at all, so any resolved branch is silently omitted
(branches are only attached inside a non-empty addressing payload). -/
theorem empty_addressing_omits_branch :
    ∀ (oid iid : String) (br : Option String) (d : String),
      ((githubTargetInfo d).isEmptyDict = true ↔ d = "" ∨ d = "unknown") ∧
      (∀ info : TargetInfo, info.isEmptyDict = true →
        create_target_entry oid iid info br = ⟨oid, iid, "", none⟩) := by
  intro oid iid br d
  constructor
  · unfold githubTargetInfo TargetInfo.isEmptyDict
    split_ifs with h1 h2
    · simp only [Option.isNone_some, Bool.false_and]
      constructor
      · intro h; cases h
      · rintro (rfl | rfl)
        · exact absurd h1.1 (by simp)
        · exact absurd h1.2 (by decide)
    · simp only [Option.isNone_none, Option.isNone_some, Bool.true_and, Bool.false_and,
        Bool.and_false]
      constructor
      · intro h; cases h
      · rintro (rfl | rfl)
        · exact absurd h2.1 (by simp)
        · exact absurd h2.2 (by simp)
    · simp only [Option.isNone_none, Bool.and_self, true_iff]
      rcases not_and_or.mp h2 with h | h
      · exact Or.inl (not_not.mp h)
      · exact Or.inr (not_not.mp h)
  · intro info h
    unfold create_target_entry
    rw [h]
    rfl

/-- Witness for C10 at a concrete empty payload and a resolved branch. -/
theorem empty_addressing_omits_branch_witness :
    create_target_entry "org-1" "int-1" ⟨none, none, none⟩ (some "main") =
      ⟨"org-1", "int-1", "", none⟩ :=
  (empty_addressing_omits_branch "org-1" "int-1" (some "main") "unknown").2
    ⟨none, none, none⟩ rfl

/-! ## Claim C6 -/

/-- C6, counterexample.  With the requested variant `"gitlab"` and an
integrations map holding only a `"github"` credential, the claim says only
second-family credentials may be selected — so none; the code's fallback
scans the first-family preference list too and selects the `"github"`
credential. -/
theorem credential_cross_family_counterexample :
    get_integration_type_and_id [("github", "i1")] (some "gitlab") =
      some ("github", "i1") ∧
    credential_selection_spec [("github", "i1")] "gitlab" = none :=
  ⟨rfl, rfl⟩

theorem fallbackIntegration_eq_global (ti : List (String × String)) :
    fallbackIntegration ti =
      ((GITHUB_INTEGRATION_TYPES ++ GITLAB_INTEGRATION_TYPES).filterMap
        (fun k => (lookupIntegration ti k).map (fun v => (familyStr k, v)))).head? := by
  unfold fallbackIntegration GITHUB_INTEGRATION_TYPES GITLAB_INTEGRATION_TYPES familyStr
  cases h1 : lookupIntegration ti "github-cloud-app" <;>
    cases h2 : lookupIntegration ti "github-enterprise" <;>
      cases h3 : lookupIntegration ti "github" <;>
        cases h4 : lookupIntegration ti "gitlab" <;>
          simp [h1, h2, h3, h4]

/-- C6, amended: the selected credential is the one keyed by the exact
requested variant name when present (tagged with that variant's family);
otherwise it is the first key of the single fixed preference list
`github-cloud-app`, `github-enterprise`, `github`, `gitlab` present in the
integrations map — regardless of the requested family, so a credential of
the other family can be selected. -/
theorem credential_selection_amended_holds :
    ∀ (ti : List (String × String)) (s : String), s ∈ sourceFilterChoices →
      get_integration_type_and_id ti (some s) = credential_selection_amended ti s := by
  intro ti s hs
  have hchain : s = "github" ∨ s = "github-enterprise" ∨ s = "github-cloud-app" ∨
      s = "gitlab" := by simpa [sourceFilterChoices] using hs
  cases h : lookupIntegration ti s with
  | none =>
    rcases hchain with rfl | rfl | rfl | rfl <;>
      simp [get_integration_type_and_id, credential_selection_amended, h,
        fallbackIntegration_eq_global, familyStr]
  | some v =>
    rcases hchain with rfl | rfl | rfl | rfl <;>
      simp [get_integration_type_and_id, credential_selection_amended, h, familyStr]

/-- Witness for C6 (amended) at a concrete map missing the requested
variant. -/
theorem credential_selection_amended_witness :
    get_integration_type_and_id [("gitlab", "g1")] (some "github") =
      credential_selection_amended [("gitlab", "g1")] "github" :=
  credential_selection_amended_holds [("gitlab", "g1")] "github" (by decide)

/-! ## Claim C5: helper bounds for the retry loop -/

theorem glLoop_two_requests_le (events : List GLEvent) (sleeps : List Nat) :
    (glLoop [2] events sleeps).requests ≤ 3 := by
  unfold glLoop
  cases events.headD .netError with
  | netError => simp
  | resp r => dsimp only; split_ifs <;> simp_all

theorem glLoop_one_requests_le (events : List GLEvent) (sleeps : List Nat) :
    (glLoop [1, 2] events sleeps).requests ≤ 3 := by
  unfold glLoop
  cases events.headD .netError with
  | netError =>
    dsimp only [List.isEmpty]
    exact glLoop_two_requests_le _ _
  | resp r =>
    dsimp only
    split_ifs <;> first
      | simp
      | exact glLoop_two_requests_le _ _

theorem glLoop_zero_requests_le (events : List GLEvent) (sleeps : List Nat) :
    (glLoop [0, 1, 2] events sleeps).requests ≤ 3 := by
  unfold glLoop
  cases events.headD .netError with
  | netError =>
    dsimp only [List.isEmpty]
    exact glLoop_one_requests_le _ _
  | resp r =>
    dsimp only
    split_ifs <;> first
      | simp
      | exact glLoop_one_requests_le _ _

/-! ## Claim C5 -/

/-- C5: the External Identity Resolver issues at most 3 requests per
repository; a 404 is immediately terminal with no retry and no identifier
(shown at the first and at a later attempt); a 429 sleeps the
server-provided retry-after (default `base * 2^attempt`, base 1s) and
retries, except on the final attempt which fails permanently with no
further sleep; a 429 followed by a 200 issues exactly two requests and
returns the 200 payload's id; three consecutive 429s issue exactly 3
requests and yield no identifier; other non-2xx statuses and network
exceptions follow the same retry-with-backoff policy. -/
theorem gitlab_lookup_retry_policy :
    (∀ events, (glRun events).requests ≤ 3) ∧
    (∀ (ra : Option Nat) (bid : Option Int) (rest : List GLEvent),
      glRun (.resp ⟨404, none, ra, bid⟩ :: rest) = ⟨1, [], none⟩) ∧
    (∀ (ra : Option Nat) (rest : List GLEvent),
      glRun (.resp ⟨429, none, none, none⟩ :: .resp ⟨404, none, ra, none⟩ :: rest) =
        ⟨2, [1], none⟩) ∧
    (∀ (ra : Option Nat) (i : Int) (rest : List GLEvent),
      glRun (.resp ⟨429, none, ra, none⟩ :: .resp ⟨200, none, none, some i⟩ :: rest) =
        ⟨2, [ra.getD 1], some i⟩) ∧
    (∀ rest, glRun (.resp ⟨429, none, none, none⟩ :: .resp ⟨429, none, none, none⟩ ::
        .resp ⟨429, none, none, none⟩ :: rest) = ⟨3, [1, 2], none⟩) ∧
    (∀ c, c ≠ 200 → c ≠ 404 → c ≠ 429 →
      (∀ (i : Int) (rest : List GLEvent),
        glRun (.resp ⟨c, none, none, none⟩ :: .resp ⟨200, none, none, some i⟩ :: rest) =
          ⟨2, [1], some i⟩) ∧
      (∀ rest, glRun (.resp ⟨c, none, none, none⟩ :: .resp ⟨c, none, none, none⟩ ::
          .resp ⟨c, none, none, none⟩ :: rest) = ⟨3, [1, 2], none⟩)) ∧
    (∀ (i : Int) (rest : List GLEvent),
      glRun (.netError :: .resp ⟨200, none, none, some i⟩ :: rest) = ⟨2, [1], some i⟩) ∧
    (∀ rest, glRun (.netError :: .netError :: .netError :: rest) = ⟨3, [1, 2], none⟩) := by
  refine ⟨fun events => glLoop_zero_requests_le events [], ?_, ?_, ?_, ?_, ?_, ?_, ?_⟩
  · intro ra bid rest; rfl
  · intro ra rest; rfl
  · intro ra i rest; rfl
  · intro rest; rfl
  · intro c h200 h404 h429
    constructor
    · intro i rest
      simp [glRun, glLoop, glPreSleep, glDelay, glBaseDelay, h200, h404, h429]
    · intro rest
      simp [glRun, glLoop, glPreSleep, glDelay, glBaseDelay, h200, h404, h429]
  · intro i rest; rfl
  · intro rest; rfl

/-- Witness for C5 at a concrete script of three HTTP 500 responses. -/
theorem gitlab_lookup_retry_policy_witness :
    glRun [.resp ⟨500, none, none, none⟩, .resp ⟨500, none, none, none⟩,
      .resp ⟨500, none, none, none⟩] = ⟨3, [1, 2], none⟩ := by
  have h := (gitlab_lookup_retry_policy.2.2.2.2.2.1 500 (by decide) (by decide)
    (by decide)).2 []
  simpa using h

/-! ## Helper lemmas: sorting, primary selection, entry construction -/

theorem sortStrings_sorted (l : List String) :
    List.Sorted (fun a b : String => a ≤ b) (sortStrings l) :=
  List.sorted_insertionSort _ l

theorem sortStrings_perm (l : List String) : List.Perm (sortStrings l) l :=
  List.perm_insertionSort _ l

theorem mem_sortStrings {l : List String} {b : String} :
    b ∈ sortStrings l ↔ b ∈ l :=
  List.mem_insertionSort _

theorem sortStrings_length (l : List String) : (sortStrings l).length = l.length :=
  List.length_insertionSort _ l

theorem sortStrings_headD_le {l : List String} {b : String}
    (hb : b ∈ l) : (sortStrings l).headD "" ≤ b := by
  have hmem : b ∈ sortStrings l := mem_sortStrings.mpr hb
  have hs := sortStrings_sorted l
  cases h : sortStrings l with
  | nil => rw [h] at hmem; cases hmem
  | cons x xs =>
    rw [h] at hmem hs
    rcases List.mem_cons.mp hmem with rfl | hmem2
    · simp
    · simpa using List.rel_of_sorted_cons hs b hmem2

theorem sortStrings_ne_nil {l : List String} (h : l ≠ []) : sortStrings l ≠ [] := by
  intro hc
  have hp := sortStrings_perm l
  rw [hc] at hp
  exact h (List.Perm.eq_nil hp.symm)

theorem primaryOf_main {bs : List String} (h : "main" ∈ bs) : primaryOf bs = "main" := by
  unfold primaryOf
  rw [if_pos h]

theorem primaryOf_master {bs : List String} (h1 : "main" ∉ bs) (h2 : "master" ∈ bs) :
    primaryOf bs = "master" := by
  unfold primaryOf
  rw [if_neg h1, if_pos h2]

theorem primaryOf_le {bs : List String} (h1 : "main" ∉ bs) (h2 : "master" ∉ bs) :
    ∀ b ∈ bs, primaryOf bs ≤ b := by
  intro b hb
  unfold primaryOf
  rw [if_neg h1, if_neg h2]
  exact sortStrings_headD_le hb

theorem primaryOf_mem {bs : List String} (hne : bs ≠ []) : primaryOf bs ∈ bs := by
  unfold primaryOf
  split_ifs with h1 h2
  · exact h1
  · exact h2
  · have hs : sortStrings bs ≠ [] := sortStrings_ne_nil hne
    have hmem : (sortStrings bs).headD "" ∈ sortStrings bs := by
      cases hh : sortStrings bs with
      | nil => exact absurd hh hs
      | cons y ys => simp
    exact mem_sortStrings.mp hmem

theorem extract_attrs_eq_noBranches {ps : List ProjectAttrs}
    (h : collectBranches ps = []) :
    extract_target_attributes_from_projects ps = .noBranches := by
  unfold extract_target_attributes_from_projects
  rw [h]

theorem extract_attrs_eq_single {ps : List ProjectAttrs} {b : String}
    (h : collectBranches ps = [b]) :
    extract_target_attributes_from_projects ps = .single b := by
  unfold extract_target_attributes_from_projects
  rw [h]

theorem extract_attrs_eq_multi {ps : List ProjectAttrs} {b1 b2 : String}
    {rest : List String} (h : collectBranches ps = b1 :: b2 :: rest) :
    extract_target_attributes_from_projects ps =
      .multi (sortStrings (collectBranches ps)) (primaryOf (collectBranches ps)) := by
  unfold extract_target_attributes_from_projects
  rw [h]

theorem create_entry_some {oid iid : String} {info : TargetInfo} {b : String}
    (hinfo : info.isEmptyDict = false) (hb : b ≠ "") :
    create_target_entry oid iid info (some b) = ⟨oid, iid, "", some (info, some b)⟩ := by
  unfold create_target_entry
  rw [hinfo]
  simp [hb]

theorem create_entry_none {oid iid : String} {info : TargetInfo}
    (hinfo : info.isEmptyDict = false) :
    create_target_entry oid iid info none = ⟨oid, iid, "", some (info, none)⟩ := by
  unfold create_target_entry
  rw [hinfo]
  rfl

theorem integration_exact {ti : List (String × String)} {f v : String}
    (hf : f ∈ sourceFilterChoices) (h : lookupIntegration ti f = some v) :
    get_integration_type_and_id ti (some f) = some (familyStr f, v) := by
  have hchain : f = "github" ∨ f = "github-enterprise" ∨ f = "github-cloud-app" ∨
      f = "gitlab" := by simpa [sourceFilterChoices] using hf
  rcases hchain with rfl | rfl | rfl | rfl <;>
    simp [get_integration_type_and_id, h, familyStr]

theorem processTarget_accepted (oid : String) (pr : Except String (List ProjectAttrs))
    {f : String} {ti : List (String × String)}
    {g : GitlabInfo → Option Int} {t : Target}
    {itype iid : String} {info : TargetInfo}
    (hpass : passesFilter f (get_source_integration_type t) ti = true)
    (hint : get_integration_type_and_id ti (some f) = some (itype, iid))
    (hiid : iid ≠ "")
    (hinfo : targetInfoFor itype t.displayName g = .ok info) :
    processTarget f oid ti g pr t =
      (buildEntries oid iid info (projectAttrsOf pr),
       fetchWarnings pr ++ noBranchWarnings itype info (projectAttrsOf pr)) := by
  unfold processTarget processAccepted
  rw [hpass, hint]
  simp [hinfo, hiid]

/-! ## Claim C1 -/

/-- C1: for a repository that passes the Integration Matcher filter (with a
non-empty exact credential) and whose addressing payload is resolved
non-empty, the emitted entries are determined by the resolved distinct
branch set `B = collectBranches ps`: `B = [b]` yields exactly one entry
carrying `b`; `|B| ≥ 2` yields exactly `|B|` entries, one per branch of the
sorted branch list; `B = []` yields exactly one entry with no branch
field. -/
theorem branch_count_determines_entries :
    ∀ (f oid : String) (ti : List (String × String)) (g : GitlabInfo → Option Int)
      (t : Target) (ps : List ProjectAttrs) (iid : String) (info : TargetInfo),
      f ∈ sourceFilterChoices →
      passesFilter f (get_source_integration_type t) ti = true →
      lookupIntegration ti f = some iid → iid ≠ "" →
      targetInfoFor (familyStr f) t.displayName g = .ok info →
      info.isEmptyDict = false →
      ((∀ b, collectBranches ps = [b] →
          (processTarget f oid ti g (.ok ps) t).1 =
            [⟨oid, iid, "", some (info, some b)⟩]) ∧
        (2 ≤ (collectBranches ps).length →
          (processTarget f oid ti g (.ok ps) t).1.map entryBranch =
              (sortStrings (collectBranches ps)).map some ∧
            (processTarget f oid ti g (.ok ps) t).1.length =
              (collectBranches ps).length ∧
            List.Perm (sortStrings (collectBranches ps)) (collectBranches ps)) ∧
        (collectBranches ps = [] →
          (processTarget f oid ti g (.ok ps) t).1 =
            [⟨oid, iid, "", some (info, none)⟩])) := by
  intro f oid ti g t ps iid info hf hpass hlv hiid hinfo hne
  have hint := integration_exact hf hlv
  have hpt := processTarget_accepted oid (.ok ps) hpass hint hiid hinfo
  refine ⟨?_, ?_, ?_⟩
  · intro b hb
    have hbne : b ≠ "" := collectBranches_ne_empty (by rw [hb]; simp)
    have hattr : projectAttrsOf (Except.ok ps) = TargetAttrs.single b := by
      simp [projectAttrsOf, extract_attrs_eq_single hb]
    simp only [hpt, hattr, buildEntries]
    rw [create_entry_some hne hbne]
  · intro hlen
    obtain ⟨b1, b2, rest, hcb⟩ : ∃ b1 b2 rest, collectBranches ps = b1 :: b2 :: rest := by
      cases h : collectBranches ps with
      | nil => rw [h] at hlen; simp at hlen
      | cons x xs =>
        cases xs with
        | nil => rw [h] at hlen; simp at hlen
        | cons y ys => exact ⟨x, y, ys, rfl⟩
    have hattr : projectAttrsOf (Except.ok ps) =
        TargetAttrs.multi (sortStrings (collectBranches ps))
          (primaryOf (collectBranches ps)) := by
      simp [projectAttrsOf, extract_attrs_eq_multi hcb]
    simp only [hpt, hattr, buildEntries]
    refine ⟨?_, ?_, sortStrings_perm _⟩
    · rw [List.map_map]
      apply List.map_congr_left
      intro b hbS
      have hbB : b ∈ collectBranches ps := mem_sortStrings.mp hbS
      have hbne : b ≠ "" := collectBranches_ne_empty hbB
      simp [Function.comp, create_entry_some hne hbne, entryBranch]
    · rw [List.length_map, sortStrings_length]
  · intro hb
    have hattr : projectAttrsOf (Except.ok ps) = TargetAttrs.noBranches := by
      simp [projectAttrsOf, extract_attrs_eq_noBranches hb]
    simp only [hpt, hattr, buildEntries]
    rw [create_entry_none hne]

/-- Witness for C1: a single-branch repository yields one entry carrying
that branch. -/
theorem branch_count_determines_entries_witness :
    (processTarget "github" "org-1" [("github", "i1")] (fun _ => none)
        (.ok [⟨"r:main", "", ""⟩]) ⟨"t1", "https://github.com/o/r", "o/r", none⟩).1 =
      [⟨"org-1", "i1", "", some (⟨some "o", some "r", none⟩, some "main")⟩] :=
  (branch_count_determines_entries "github" "org-1" [("github", "i1")] (fun _ => none)
      ⟨"t1", "https://github.com/o/r", "o/r", none⟩ [⟨"r:main", "", ""⟩] "i1"
      ⟨some "o", some "r", none⟩ (by decide) (by decide) rfl (by decide) rfl rfl).1
    "main" rfl

/-! ## Claim C2 -/

/-- C2: for a repository with two or more distinct resolved branches, the
attributes are the sorted branch list paired with the primary branch; the
per-branch entries are emitted in lexicographically sorted branch order;
the primary is `main` if present, else `master` if present, else the
lexicographically smallest branch; and the primary appears in the sorted
list, so it receives its own entry exactly like every other branch. -/
theorem multi_branch_primary_and_order :
    ∀ (f oid : String) (ti : List (String × String)) (g : GitlabInfo → Option Int)
      (t : Target) (ps : List ProjectAttrs) (iid : String) (info : TargetInfo),
      f ∈ sourceFilterChoices →
      passesFilter f (get_source_integration_type t) ti = true →
      lookupIntegration ti f = some iid → iid ≠ "" →
      targetInfoFor (familyStr f) t.displayName g = .ok info →
      info.isEmptyDict = false →
      2 ≤ (collectBranches ps).length →
      (extract_target_attributes_from_projects ps =
          .multi (sortStrings (collectBranches ps)) (primaryOf (collectBranches ps)) ∧
        (processTarget f oid ti g (.ok ps) t).1 =
          (sortStrings (collectBranches ps)).map
            (fun b => ⟨oid, iid, "", some (info, some b)⟩) ∧
        List.Sorted (fun a b : String => a ≤ b) (sortStrings (collectBranches ps)) ∧
        primaryOf (collectBranches ps) ∈ sortStrings (collectBranches ps) ∧
        ("main" ∈ collectBranches ps → primaryOf (collectBranches ps) = "main") ∧
        ("main" ∉ collectBranches ps → "master" ∈ collectBranches ps →
          primaryOf (collectBranches ps) = "master") ∧
        ("main" ∉ collectBranches ps → "master" ∉ collectBranches ps →
          ∀ b ∈ collectBranches ps, primaryOf (collectBranches ps) ≤ b)) := by
  intro f oid ti g t ps iid info hf hpass hlv hiid hinfo hne hlen
  have hint := integration_exact hf hlv
  have hpt := processTarget_accepted oid (.ok ps) hpass hint hiid hinfo
  have hnil : collectBranches ps ≠ [] := by
    intro hc; rw [hc] at hlen; simp at hlen
  obtain ⟨b1, b2, rest, hcb⟩ : ∃ b1 b2 rest, collectBranches ps = b1 :: b2 :: rest := by
    cases h : collectBranches ps with
    | nil => rw [h] at hlen; simp at hlen
    | cons x xs =>
      cases xs with
      | nil => rw [h] at hlen; simp at hlen
      | cons y ys => exact ⟨x, y, ys, rfl⟩
  have hmulti := extract_attrs_eq_multi hcb
  have hattr : projectAttrsOf (Except.ok ps) =
      TargetAttrs.multi (sortStrings (collectBranches ps))
        (primaryOf (collectBranches ps)) := by
    simp [projectAttrsOf, hmulti]
  refine ⟨hmulti, ?_, sortStrings_sorted _,
    mem_sortStrings.mpr (primaryOf_mem hnil),
    fun h => primaryOf_main h, fun h1 h2 => primaryOf_master h1 h2,
    fun h1 h2 => primaryOf_le h1 h2⟩
  simp only [hpt, hattr, buildEntries]
  apply List.map_congr_left
  intro b hbS
  have hbB : b ∈ collectBranches ps := mem_sortStrings.mp hbS
  have hbne : b ≠ "" := collectBranches_ne_empty hbB
  exact create_entry_some hne hbne

/-- Witness for C2: on a repository scanned under `main` and `dev`, the
primary branch is `main`. -/
theorem multi_branch_primary_and_order_witness :
    primaryOf (collectBranches [⟨"r:main", "", ""⟩, ⟨"r:dev", "", ""⟩]) = "main" :=
  (multi_branch_primary_and_order "github" "org-1" [("github", "i1")]
      (fun _ => none) ⟨"t1", "https://github.com/o/r", "o/r", none⟩
      [⟨"r:main", "", ""⟩, ⟨"r:dev", "", ""⟩] "i1" ⟨some "o", some "r", none⟩
      (by decide) (by decide) rfl (by decide) rfl rfl
      (by decide)).2.2.2.2.1 (by decide)

/-! ## Helper lemmas: folds, filter, and entry shapes -/

theorem foldl_acc_append {α β γ : Type} (step : α → List β × List γ) :
    ∀ (l : List α) (acc : List β × List γ),
      l.foldl (fun a x => (a.1 ++ (step x).1, a.2 ++ (step x).2)) acc =
        (acc.1 ++ (l.map (fun x => (step x).1)).flatten,
          acc.2 ++ (l.map (fun x => (step x).2)).flatten) := by
  intro l
  induction l with
  | nil => intro acc; simp
  | cons x xs ih => intro acc; rw [List.foldl_cons, ih]; simp [List.append_assoc]

theorem processOrg_error (f : String) (d : OrgData)
    (pf : String → Except String (List ProjectAttrs)) (g : GitlabInfo → Option Int)
    (e : String) : processOrg f d (.error e) pf g = ([], [Warn.orgFailed]) :=
  rfl

theorem processOrg_ok_eq (f : String) (d : OrgData) (ts : List Target)
    (pf : String → Except String (List ProjectAttrs)) (g : GitlabInfo → Option Int) :
    processOrg f d (.ok ts) pf g =
      ((ts.map (fun t => (processTarget f d.orgId d.integrations g (pf t.id) t).1)).flatten,
        (ts.map (fun t => (processTarget f d.orgId d.integrations g (pf t.id) t).2)).flatten) := by
  have h := foldl_acc_append
    (fun t => processTarget f d.orgId d.integrations g (pf t.id) t) ts ([], [])
  simp only [List.nil_append] at h
  exact h

theorem extract_targets_core_eq (f : String) (mapping : List (String × OrgData))
    (orgs : List SourceOrg) (fT : String → Except String (List Target))
    (fP : String → String → Except String (List ProjectAttrs))
    (g : GitlabInfo → Option Int) :
    extract_targets_core f mapping orgs fT fP g =
      (((orgs.filter (fun o => (lookupOrg mapping o.name).isSome)).map
          (fun o => (orgStep f mapping fT fP g o).1)).flatten,
        ((orgs.filter (fun o => (lookupOrg mapping o.name).isSome)).map
          (fun o => (orgStep f mapping fT fP g o).2)).flatten) := by
  have h := foldl_acc_append (orgStep f mapping fT fP g)
    (orgs.filter (fun o => (lookupOrg mapping o.name).isSome)) ([], [])
  simp only [List.nil_append] at h
  exact h

theorem mem_run_entries {f : String} {mapping : List (String × OrgData)}
    {orgs : List SourceOrg} {fT : String → Except String (List Target)}
    {fP : String → String → Except String (List ProjectAttrs)}
    {g : GitlabInfo → Option Int} {e : ImportEntry} :
    e ∈ (extract_targets_core f mapping orgs fT fP g).1 ↔
      ∃ o ∈ orgs.filter (fun o => (lookupOrg mapping o.name).isSome),
        e ∈ (orgStep f mapping fT fP g o).1 := by
  rw [extract_targets_core_eq]
  simp [List.mem_flatten]

theorem mem_processOrg_entries {f : String} {d : OrgData} {ts : List Target}
    {pf : String → Except String (List ProjectAttrs)} {g : GitlabInfo → Option Int}
    {e : ImportEntry} :
    e ∈ (processOrg f d (.ok ts) pf g).1 ↔
      ∃ t ∈ ts, e ∈ (processTarget f d.orgId d.integrations g (pf t.id) t).1 := by
  rw [processOrg_ok_eq]
  simp [List.mem_flatten]

theorem passesFilter_github_true {f : String}
    (hf : f = "github" ∨ f = "github-cloud-app" ∨ f = "github-enterprise")
    {src : Option String} {ti : List (String × String)}
    (h : passesFilter f src ti = true) :
    (src = some "github" ∨ src = some "github-cloud-app" ∨
      src = some "github-enterprise") ∧ (lookupIntegration ti f).isSome = true := by
  unfold passesFilter at h
  rw [if_pos hf] at h
  simpa using h

theorem passesFilter_gitlab_true {src : Option String} {ti : List (String × String)}
    (h : passesFilter "gitlab" src ti = true) :
    src = some "gitlab" ∧ (lookupIntegration ti "gitlab").isSome = true := by
  unfold passesFilter at h
  rw [if_neg (by decide), if_pos rfl] at h
  simpa using h

theorem passesFilter_isSome {f : String} (hf : f ∈ sourceFilterChoices)
    {src : Option String} {ti : List (String × String)}
    (h : passesFilter f src ti = true) : (lookupIntegration ti f).isSome = true := by
  have hchain : f = "github" ∨ f = "github-enterprise" ∨ f = "github-cloud-app" ∨
      f = "gitlab" := by simpa [sourceFilterChoices] using hf
  rcases hchain with rfl | rfl | rfl | rfl
  · exact (passesFilter_github_true (Or.inl rfl) h).2
  · exact (passesFilter_github_true (Or.inr (Or.inr rfl)) h).2
  · exact (passesFilter_github_true (Or.inr (Or.inl rfl)) h).2
  · exact (passesFilter_gitlab_true h).2

theorem passesFilter_none_false {f : String} (hf : f ∈ sourceFilterChoices)
    (ti : List (String × String)) : passesFilter f none ti = false := by
  have hchain : f = "github" ∨ f = "github-enterprise" ∨ f = "github-cloud-app" ∨
      f = "gitlab" := by simpa [sourceFilterChoices] using hf
  rcases hchain with rfl | rfl | rfl | rfl <;> simp [passesFilter]

theorem processTarget_filtered {f oid : String} {ti : List (String × String)}
    {g : GitlabInfo → Option Int} {pr : Except String (List ProjectAttrs)} {t : Target}
    (h : passesFilter f (get_source_integration_type t) ti = false) :
    processTarget f oid ti g pr t = ([], []) := by
  simp [processTarget, h]

theorem processTarget_infoError {f oid : String} {ti : List (String × String)}
    {g : GitlabInfo → Option Int} {pr : Except String (List ProjectAttrs)} {t : Target}
    {itype iid : String} {w : Warn}
    (hpass : passesFilter f (get_source_integration_type t) ti = true)
    (hint : get_integration_type_and_id ti (some f) = some (itype, iid))
    (hiid : iid ≠ "")
    (herr : targetInfoFor itype t.displayName g = .error w) :
    processTarget f oid ti g pr t = ([], [w]) := by
  unfold processTarget processAccepted
  rw [hpass, hint]
  simp [herr, hiid]

theorem githubTargetInfo_pid (d : String) : (githubTargetInfo d).pid = none := by
  unfold githubTargetInfo
  split_ifs <;> rfl

theorem targetInfoFor_github (d : String) (g : GitlabInfo → Option Int) :
    targetInfoFor "github" d g = .ok (githubTargetInfo d) :=
  rfl

theorem targetInfoFor_gitlab_shape {d : String} {g : GitlabInfo → Option Int}
    {info : TargetInfo} (h : targetInfoFor "gitlab" d g = .ok info) :
    info.owner = none ∧ info.name = none ∧ info.pid.isSome = true := by
  unfold targetInfoFor at h
  rw [if_neg (by decide), if_pos rfl] at h
  cases hgi : extract_gitlab_project_info_from_display_name d with
  | none => simp [hgi] at h
  | some gi =>
    simp only [hgi] at h
    cases hp : g gi with
    | none => simp [hp] at h
    | some pid =>
      simp only [hp] at h
      split_ifs at h with hz
      · cases h; exact ⟨rfl, rfl, rfl⟩

theorem lookupOrg_mem {mapping : List (String × OrgData)} {n : String} {d : OrgData}
    (h : lookupOrg mapping n = some d) : ∃ p ∈ mapping, p.2 = d := by
  unfold lookupOrg at h
  obtain ⟨q, hq, hd⟩ := Option.map_eq_some'.mp h
  exact ⟨q, List.mem_of_find?_eq_some hq, hd⟩

theorem mem_buildEntries {oid iid : String} {info : TargetInfo} {attrs : TargetAttrs}
    {e : ImportEntry} (h : e ∈ buildEntries oid iid info attrs) :
    ∃ br, e = create_target_entry oid iid info br := by
  cases attrs with
  | noBranches => simp [buildEntries] at h; exact ⟨none, h⟩
  | single b => simp [buildEntries] at h; exact ⟨some b, h⟩
  | multi bs p =>
    simp [buildEntries] at h
    obtain ⟨b, _, hb⟩ := h
    exact ⟨some b, hb.symm⟩

theorem processTarget_entry_shape {f oid : String} {ti : List (String × String)}
    {g : GitlabInfo → Option Int} {pr : Except String (List ProjectAttrs)} {t : Target}
    {e : ImportEntry} (hf : f ∈ sourceFilterChoices)
    (h : e ∈ (processTarget f oid ti g pr t).1) :
    ∃ iid info br, lookupIntegration ti f = some iid ∧ iid ≠ "" ∧
      targetInfoFor (familyStr f) t.displayName g = .ok info ∧
      e = create_target_entry oid iid info br := by
  by_cases hp : passesFilter f (get_source_integration_type t) ti = true
  · obtain ⟨iid, hlv⟩ := Option.isSome_iff_exists.mp (passesFilter_isSome hf hp)
    have hint := integration_exact hf hlv
    by_cases hiid : iid = ""
    · rw [show processTarget f oid ti g pr t = ([], [Warn.noIntegration]) from by
        unfold processTarget processAccepted
        rw [hp, hint]
        simp [hiid]] at h
      simp at h
    · cases hinfo : targetInfoFor (familyStr f) t.displayName g with
      | error w =>
        rw [processTarget_infoError hp hint hiid hinfo] at h
        simp at h
      | ok info =>
        rw [processTarget_accepted oid pr hp hint hiid hinfo] at h
        obtain ⟨br, hbr⟩ := mem_buildEntries h
        exact ⟨iid, info, br, hlv, hiid, rfl, hbr⟩
  · have hp2 : passesFilter f (get_source_integration_type t) ti = false := by
      simpa using hp
    rw [processTarget_filtered hp2] at h
    simp at h

/-! ## Claim C4 -/

/-- C4: for each of the four supported filter values, a repository passes
the Integration Matcher only if its inferred source family matches the
requested filter's family group and the destination integrations map holds
a credential under the exact requested variant name; a repository that
fails the filter, and in particular one whose family inference yields no
signal, has no entry emitted. -/
theorem filter_requires_family_and_credential :
    ∀ (f : String), f ∈ sourceFilterChoices →
      ∀ (t : Target) (ti : List (String × String)) (oid : String)
        (g : GitlabInfo → Option Int) (pr : Except String (List ProjectAttrs)),
        (passesFilter f (get_source_integration_type t) ti = false →
          (processTarget f oid ti g pr t).1 = []) ∧
        (passesFilter f (get_source_integration_type t) ti = true →
          (get_source_integration_type t).bind familyOfVariant = familyOfVariant f ∧
          (lookupIntegration ti f).isSome = true) ∧
        (get_source_integration_type t = none →
          (processTarget f oid ti g pr t).1 = []) := by
  intro f hf t ti oid g pr
  have hchain : f = "github" ∨ f = "github-enterprise" ∨ f = "github-cloud-app" ∨
      f = "gitlab" := by simpa [sourceFilterChoices] using hf
  refine ⟨?_, ?_, ?_⟩
  · intro h
    rw [processTarget_filtered h]
  · intro h
    refine ⟨?_, passesFilter_isSome hf h⟩
    rcases hchain with rfl | rfl | rfl | rfl
    · rcases (passesFilter_github_true (Or.inl rfl) h).1 with h1 | h1 | h1 <;>
        simp [h1, familyOfVariant]
    · rcases (passesFilter_github_true (Or.inr (Or.inr rfl)) h).1 with h1 | h1 | h1 <;>
        simp [h1, familyOfVariant]
    · rcases (passesFilter_github_true (Or.inr (Or.inl rfl)) h).1 with h1 | h1 | h1 <;>
        simp [h1, familyOfVariant]
    · have h1 := (passesFilter_gitlab_true h).1
      simp [h1, familyOfVariant]
  · intro h
    have hfalse : passesFilter f (get_source_integration_type t) ti = false := by
      rw [h]
      exact passesFilter_none_false hf ti
    rw [processTarget_filtered hfalse]

/-- Witness for C4: a repository with no inference signal is rejected by
the `gitlab` filter and emits nothing. -/
theorem filter_requires_family_and_credential_witness :
    (processTarget "gitlab" "o1" [("gitlab", "i9")] (fun _ => none) (.ok [])
        ⟨"t", "", "x", none⟩).1 = [] :=
  (filter_requires_family_and_credential "gitlab" (by decide) ⟨"t", "", "x", none⟩
      [("gitlab", "i9")] "o1" (fun _ => none) (.ok [])).2.2 rfl

/-! ## Claim C8: helper congruence -/

theorem processTarget_entries_congr {f oid : String} {ti : List (String × String)}
    {g : GitlabInfo → Option Int} {t : Target}
    {pr1 pr2 : Except String (List ProjectAttrs)}
    (hpa : projectAttrsOf pr1 = projectAttrsOf pr2) :
    (processTarget f oid ti g pr1 t).1 = (processTarget f oid ti g pr2 t).1 := by
  unfold processTarget processAccepted
  by_cases hp : passesFilter f (get_source_integration_type t) ti
  · simp only [hp, if_true]
    cases get_integration_type_and_id ti (some f) with
    | none => rfl
    | some p =>
      cases p with
      | mk itype iid =>
        by_cases hiid : iid = ""
        · simp [hiid]
        · simp only [hiid, if_false]
          cases targetInfoFor itype t.displayName g with
          | error w => rfl
          | ok info => simp [hpa]
  · simp [hp]

/-! ## Claim C8 -/

/-- C8: the run decomposes into independent per-organization contributions
(so no per-unit failure terminates it); an organization whose target
listing fetch fails contributes zero entries with a reported failure, and
processing of the other organizations is unaffected; a repository whose
scan-record fetch fails produces exactly the entries it would produce with
zero scan records. -/
theorem org_failure_isolated :
    (∀ (f : String) (mapping : List (String × OrgData)) (orgs : List SourceOrg)
        (fT : String → Except String (List Target))
        (fP : String → String → Except String (List ProjectAttrs))
        (g : GitlabInfo → Option Int),
      (extract_targets_core f mapping orgs fT fP g).1 =
        ((orgs.filter (fun o => (lookupOrg mapping o.name).isSome)).map
          (fun o => (orgStep f mapping fT fP g o).1)).flatten) ∧
    (∀ (f : String) (d : OrgData) (pf : String → Except String (List ProjectAttrs))
        (g : GitlabInfo → Option Int) (e : String),
      processOrg f d (.error e) pf g = ([], [Warn.orgFailed])) ∧
    (∀ (f oid : String) (ti : List (String × String)) (g : GitlabInfo → Option Int)
        (t : Target) (e : String),
      (processTarget f oid ti g (.error e) t).1 =
        (processTarget f oid ti g (.ok []) t).1) := by
  refine ⟨?_, ?_, ?_⟩
  · intro f mapping orgs fT fP g
    rw [extract_targets_core_eq]
  · intro f d pf g e
    rfl
  · intro f oid ti g t e
    exact processTarget_entries_congr rfl

/-! ## Claim C7 -/

/-- C7, counterexample.  A second-family repository accepted by the filter
whose display name cannot be parsed (no `'/'`) is dropped — zero entries —
with a warning, where the claim says an entry missing the numeric id would
still be emitted. -/
theorem gitlab_missing_id_dropped_counterexample :
    passesFilter "gitlab"
        (get_source_integration_type ⟨"t1", "https://gitlab.com/g/p", "proj", none⟩)
        [("gitlab", "i9")] = true ∧
    processTarget "gitlab" "org1" [("gitlab", "i9")] (fun _ => none) (.ok [])
        ⟨"t1", "https://gitlab.com/g/p", "proj", none⟩ =
      ([], [.couldNotParseGitlab]) :=
  ⟨rfl, rfl⟩

theorem projectAttrsOf_multi_ne_nil {pr : Except String (List ProjectAttrs)}
    {bs : List String} {p : String}
    (h : projectAttrsOf pr = .multi bs p) : bs ≠ [] := by
  cases pr with
  | error e => simp [projectAttrsOf] at h
  | ok ps =>
    simp only [projectAttrsOf] at h
    cases hcb : collectBranches ps with
    | nil => rw [extract_attrs_eq_noBranches hcb] at h; simp at h
    | cons x xs =>
      cases xs with
      | nil => rw [extract_attrs_eq_single hcb] at h; simp at h
      | cons y ys =>
        rw [extract_attrs_eq_multi hcb] at h
        simp at h
        obtain ⟨h1, h2⟩ := h
        rw [← h1]
        exact sortStrings_ne_nil (by rw [hcb]; simp)

theorem buildEntries_ne_nil {oid iid : String} {info : TargetInfo}
    {pr : Except String (List ProjectAttrs)} :
    buildEntries oid iid info (projectAttrsOf pr) ≠ [] := by
  cases hattr : projectAttrsOf pr with
  | noBranches => simp [buildEntries]
  | single b => simp [buildEntries]
  | multi bs p => simpa [buildEntries] using projectAttrsOf_multi_ne_nil hattr

/-- C7, amended: a first-family repository accepted by the filter always
has its entries emitted, even when the addressing payload misses owner or
name, and the missing-owner/name warning is reported (only) on the
no-branch path; a second-family repository whose numeric id cannot be
resolved is dropped — no entry — with the corresponding reported
warning. -/
theorem incomplete_entry_emission_amended :
    (∀ (f oid : String) (ti : List (String × String)) (g : GitlabInfo → Option Int)
        (pr : Except String (List ProjectAttrs)) (t : Target) (iid : String),
      (f = "github" ∨ f = "github-cloud-app" ∨ f = "github-enterprise") →
      passesFilter f (get_source_integration_type t) ti = true →
      lookupIntegration ti f = some iid → iid ≠ "" →
      ((processTarget f oid ti g pr t).1 ≠ [] ∧
        (projectAttrsOf pr = .noBranches →
          (optFalsy (githubTargetInfo t.displayName).owner ||
            optFalsy (githubTargetInfo t.displayName).name) = true →
          Warn.missingOwnerName ∈ (processTarget f oid ti g pr t).2))) ∧
    (∀ (oid : String) (ti : List (String × String)) (g : GitlabInfo → Option Int)
        (pr : Except String (List ProjectAttrs)) (t : Target) (iid : String) (w : Warn),
      passesFilter "gitlab" (get_source_integration_type t) ti = true →
      lookupIntegration ti "gitlab" = some iid → iid ≠ "" →
      targetInfoFor "gitlab" t.displayName g = .error w →
      processTarget "gitlab" oid ti g pr t = ([], [w])) := by
  constructor
  · intro f oid ti g pr t iid hf hpass hlv hiid
    have hfc : f ∈ sourceFilterChoices := by
      rcases hf with rfl | rfl | rfl <;> decide
    have hfam : familyStr f = "github" := by
      rcases hf with rfl | rfl | rfl <;> rfl
    have hint := integration_exact hfc hlv
    have hinfo : targetInfoFor (familyStr f) t.displayName g =
        .ok (githubTargetInfo t.displayName) := by
      rw [hfam]
      exact targetInfoFor_github _ _
    have hpt := processTarget_accepted oid pr hpass hint hiid hinfo
    constructor
    · simp only [hpt]
      exact buildEntries_ne_nil
    · intro hattr hfal
      simp only [hpt]
      rw [hfam, hattr]
      simp [noBranchWarnings, hfal]
  · intro oid ti g pr t iid w hpass hlv hiid herr
    have hint := integration_exact (by decide) hlv
    exact processTarget_infoError hpass hint hiid herr

/-- Witness for C7 (amended): an accepted first-family repository with an
empty display name still emits its (addressless) entry, and the
missing-owner/name warning is reported. -/
theorem incomplete_entry_emission_amended_witness :
    (processTarget "github" "o1" [("github", "i1")] (fun _ => none) (.ok [])
        ⟨"t", "https://github.com/x", "", none⟩).1 ≠ [] ∧
    Warn.missingOwnerName ∈ (processTarget "github" "o1" [("github", "i1")]
        (fun _ => none) (.ok []) ⟨"t", "https://github.com/x", "", none⟩).2 := by
  have h := incomplete_entry_emission_amended.1 "github" "o1" [("github", "i1")]
    (fun _ => none) (.ok []) ⟨"t", "https://github.com/x", "", none⟩ "i1"
    (Or.inl rfl) (by decide) rfl (by decide)
  exact ⟨h.1, h.2 (by decide) (by decide)⟩

/-! ## Claim C9 -/

/-- C9, counterexample.  The destination organization id is taken from the
mapping without any non-emptiness check: a mapping entry whose org id is the
empty string produces an ImportEntry whose `orgId` is `""` (only the
integration id is truthiness-guarded). -/
theorem empty_org_id_emitted_counterexample :
    (extract_targets_core "github" [("A", ⟨"", [("github", "i1")]⟩)] [⟨"s1", "A"⟩]
        (fun _ => .ok [⟨"t1", "https://github.com/o/r", "o/r", none⟩])
        (fun _ _ => .ok []) (fun _ => none)).1 =
      [⟨"", "i1", "", some (⟨some "o", some "r", none⟩, none)⟩] :=
  rfl

theorem familyStr_of_ne {f : String} (h : f ≠ "gitlab") : familyStr f = "github" := by
  unfold familyStr
  rw [if_neg h]

theorem targetInfoFor_github_ok {d : String} {g : GitlabInfo → Option Int}
    {info : TargetInfo} (h : targetInfoFor "github" d g = .ok info) :
    info = githubTargetInfo d := by
  rw [targetInfoFor_github] at h
  cases h
  rfl

theorem create_target_entry_target (oid iid : String) (info : TargetInfo)
    (br : Option String) :
    (create_target_entry oid iid info br).target =
      if info.isEmptyDict then none
      else some (info,
        match br with
        | some b => if b ≠ "" then some b else none
        | none => none) :=
  rfl

/-- C9, amended: every entry placed into the output collection carries the
destination organization id verbatim from the mapping — hence non-empty
whenever every mapping entry's org id is non-empty (the code itself never
checks it) — a non-empty destination integration id, the empty
exclusion-globs placeholder, and a family-consistent addressing payload:
a payload holding a numeric id holds neither owner nor name; under the
second-family filter every entry holds a numeric id and nothing else, and
under a first-family filter no entry holds a numeric id. -/
theorem entry_invariants_amended :
    ∀ (f : String) (mapping : List (String × OrgData)) (orgs : List SourceOrg)
      (fT : String → Except String (List Target))
      (fP : String → String → Except String (List ProjectAttrs))
      (g : GitlabInfo → Option Int),
      f ∈ sourceFilterChoices →
      (∀ p ∈ mapping, p.2.orgId ≠ "") →
      ∀ e ∈ (extract_targets_core f mapping orgs fT fP g).1,
        e.orgId ≠ "" ∧ e.integrationId ≠ "" ∧ e.exclusionGlobs = "" ∧
        (∀ info br, e.target = some (info, br) →
          info.pid.isSome = true → info.owner = none ∧ info.name = none) ∧
        (f = "gitlab" → ∃ info br, e.target = some (info, br) ∧
          info.pid.isSome = true ∧ info.owner = none ∧ info.name = none) ∧
        (f ≠ "gitlab" → ∀ info br, e.target = some (info, br) → info.pid = none) := by
  intro f mapping orgs fT fP g hf hmap e he
  obtain ⟨o, ho, he2⟩ := mem_run_entries.mp he
  cases hlo : lookupOrg mapping o.name with
  | none =>
    rw [show orgStep f mapping fT fP g o = ([], []) from by
      unfold orgStep; rw [hlo]] at he2
    simp at he2
  | some d =>
    rw [show orgStep f mapping fT fP g o = processOrg f d (fT o.id) (fP o.id) g from by
      unfold orgStep; rw [hlo]] at he2
    cases hts : fT o.id with
    | error er =>
      rw [hts, processOrg_error] at he2
      simp at he2
    | ok ts =>
      rw [hts] at he2
      obtain ⟨t, ht, he3⟩ := mem_processOrg_entries.mp he2
      obtain ⟨iid, info, br, hlv, hiid, hinfo, hshape⟩ := processTarget_entry_shape hf he3
      have hdne : d.orgId ≠ "" := by
        obtain ⟨p, hpmem, hpd⟩ := lookupOrg_mem hlo
        rw [← hpd]
        exact hmap p hpmem
      subst hshape
      refine ⟨hdne, hiid, rfl, ?_, ?_, ?_⟩
      · intro info2 br2 htgt hpid
        rw [create_target_entry_target] at htgt
        by_cases hemp : info.isEmptyDict
        · rw [if_pos hemp] at htgt
          cases htgt
        · rw [if_neg hemp] at htgt
          have hinfo2 : info2 = info := by
            cases htgt
            rfl
          subst hinfo2
          by_cases hgl : f = "gitlab"
          · subst hgl
            obtain ⟨h1, h2, _⟩ := targetInfoFor_gitlab_shape hinfo
            exact ⟨h1, h2⟩
          · have hfam := familyStr_of_ne hgl
            rw [hfam] at hinfo
            have := targetInfoFor_github_ok hinfo
            subst this
            rw [githubTargetInfo_pid] at hpid
            cases hpid
      · intro hgl
        subst hgl
        obtain ⟨h1, h2, h3⟩ := targetInfoFor_gitlab_shape hinfo
        have hemp : info.isEmptyDict = false := by
          obtain ⟨pid0, hpid0⟩ := Option.isSome_iff_exists.mp h3
          unfold TargetInfo.isEmptyDict
          rw [hpid0]
          simp
        refine ⟨info,
          (match br with
            | some b => if b ≠ "" then some b else none
            | none => none), ?_, h3, h1, h2⟩
        rw [create_target_entry_target, if_neg (by rw [hemp]; simp)]
        cases br <;> rfl
      · intro hgl info2 br2 htgt
        have hfam := familyStr_of_ne hgl
        rw [hfam] at hinfo
        have hgh := targetInfoFor_github_ok hinfo
        subst hgh
        rw [create_target_entry_target] at htgt
        by_cases hemp : (githubTargetInfo t.displayName).isEmptyDict
        · rw [if_pos hemp] at htgt
          cases htgt
        · rw [if_neg hemp] at htgt
          have hinfo2 : info2 = githubTargetInfo t.displayName := by
            cases htgt
            rfl
          subst hinfo2
          exact githubTargetInfo_pid _

/-- Witness for C9 (amended): with every mapping org id non-empty, the
emitted entry of a concrete run carries a non-empty org id. -/
theorem entry_invariants_amended_witness :
    (⟨"org9", "i1", "", some (⟨some "o", some "r", none⟩, none)⟩ : ImportEntry).orgId ≠
      "" :=
  (entry_invariants_amended "github" [("A", ⟨"org9", [("github", "i1")]⟩)]
      [⟨"s1", "A"⟩] (fun _ => .ok [⟨"t1", "https://github.com/o/r", "o/r", none⟩])
      (fun _ _ => .ok []) (fun _ => none) (by decide) (by decide)
      ⟨"org9", "i1", "", some (⟨some "o", some "r", none⟩, none)⟩ (by decide)).1

end SnykExtract
